import Mathlib

/-!
A verification development for the numeric-rounding core and the resilient
websocket-stream core of the polymarket-rs client library.

The Rust code is embedded shallowly:

* `rust_decimal::Decimal` values are pairs of an integer mantissa and a
  decimal scale (`Decimal` below); the rounding strategies used by
  `src/orders/rounding.rs` are reproduced on that representation.
* the reconnecting stream of `src/websocket/stream.rs` is an explicit state
  machine driven by a deterministic environment (a "world" that fixes the
  outcome of every connect attempt and the items of every inner stream).
* fallible Rust operations are `Option`/`Except` valued; a Rust panic is
  modelled as `none`.
-/

/-- Model of `rust_decimal::Decimal`: an integer mantissa `m` together with a
decimal scale `s`; the denoted value is `m / 10 ^ s`.  The representation keeps
trailing zeros, exactly as `rust_decimal` does, so `scale()` (the field `s`)
is an observable of the representation, not of the denoted value. -/
structure Decimal where
  m : Int
  s : Nat
deriving DecidableEq

/-- The rational value denoted by a `Decimal`. -/
def Decimal.toRat (d : Decimal) : ℚ := (d.m : ℚ) / (10 : ℚ) ^ d.s

/-- The three `rust_decimal::RoundingStrategy` variants used by
`src/orders/rounding.rs`. -/
inductive RoundingStrategy where
  | awayFromZero
  | midpointTowardZero
  | toZero
deriving DecidableEq

/-- Magnitude-level rounding of `n / p`, away from zero (ceiling of the
magnitude). -/
def magAwayFromZero (n p : Nat) : Nat :=
  n / p + (if n % p = 0 then 0 else 1)

/-- Magnitude-level rounding of `n / p`, toward zero (floor of the
magnitude). -/
def magToZero (n p : Nat) : Nat := n / p

/-- Magnitude-level rounding of `n / p` to the nearest integer, ties toward
zero: round up exactly when the remainder strictly exceeds half of `p`. -/
def magMidpointTowardZero (n p : Nat) : Nat :=
  n / p + (if p < 2 * (n % p) then 1 else 0)

/-- Model of `Decimal::round_dp_with_strategy(dp, strategy)`: a value whose
scale is already within `dp` fractional digits is returned unchanged;
otherwise the magnitude of the mantissa is divided by `10 ^ (s - dp)` with the
requested rounding mode and the scale becomes exactly `dp`.  `rust_decimal`
rounds the unsigned 96-bit magnitude and re-attaches the sign, which is what
the `Int.sign` factor reproduces. -/
def round_dp_with_strategy (d : Decimal) (dp : Nat) (strategy : RoundingStrategy) : Decimal :=
  if d.s ≤ dp then d
  else
    let p := 10 ^ (d.s - dp)
    let mag :=
      match strategy with
      | .toZero => magToZero d.m.natAbs p
      | .awayFromZero => magAwayFromZero d.m.natAbs p
      | .midpointTowardZero => magMidpointTowardZero d.m.natAbs p
    ⟨Int.sign d.m * (mag : Int), dp⟩

/-- Model of `RoundConfig` (src/orders/rounding.rs:9-13): the number of
fractional digits allowed for price, size and amount at a given tick size. -/
structure RoundConfig where
  price : Nat
  size : Nat
  amount : Nat
deriving DecidableEq

/-- Model of the `ROUNDING_CONFIG` table (src/orders/rounding.rs:16-51),
keyed by the four supported tick sizes `0.1`, `0.01`, `0.001`, `0.0001`
(mantissa 1 at scales 1-4). -/
def ROUNDING_CONFIG : List (Decimal × RoundConfig) :=
  [(⟨1, 1⟩, ⟨1, 2, 3⟩),
   (⟨1, 2⟩, ⟨2, 2, 4⟩),
   (⟨1, 3⟩, ⟨3, 2, 5⟩),
   (⟨1, 4⟩, ⟨4, 2, 6⟩)]

/-- Model of `fix_amount_rounding` (src/orders/rounding.rs:63-71): if the
amount has more than `round_config.amount` fractional digits, first round to
`round_config.amount + 4` places away from zero and, if the result is still
over-precision, round toward zero to exactly `round_config.amount` places. -/
def fix_amount_rounding (amt : Decimal) (round_config : RoundConfig) : Decimal :=
  if round_config.amount < amt.s then
    let amt1 := round_dp_with_strategy amt (round_config.amount + 4) .awayFromZero
    if round_config.amount < amt1.s then
      round_dp_with_strategy amt1 round_config.amount .toZero
    else
      amt1
  else
    amt

/-- The two-stage amount-rounding policy exactly as the specification words
it: inputs already within `amount` fractional digits are returned untouched;
over-precision inputs are first rounded away from zero to `amount + 4`
places and then, if still over-precision, rounded toward zero to exactly
`amount` places. -/
def fix_amount_rounding_spec (amt : Decimal) (round_config : RoundConfig) : Decimal :=
  if amt.s ≤ round_config.amount then
    amt
  else
    let buffered := round_dp_with_strategy amt (round_config.amount + 4) .awayFromZero
    if buffered.s ≤ round_config.amount then
      buffered
    else
      round_dp_with_strategy buffered round_config.amount .toZero

/-- `u64::MAX` as an integer. -/
def u64_max : Int := 2 ^ 64 - 1

/-- Model of `decimal_to_token_u64` (src/orders/rounding.rs:54-60): multiply
by `1e6` (mantissa `1000000`, scale `0`, so the product is `⟨1000000 * m, s⟩`),
round to scale `0` with `MidpointTowardZero` when the scale is positive, and
convert to `u64`.  The Rust function panics (`expect`) when the conversion to
`u64` fails, i.e. when the rounded value is negative or exceeds `u64::MAX`;
a panic is modelled as `none`.  The product is modelled exactly: whenever
`rust_decimal` has to shed digits to fit the 96-bit mantissa it divides by
ten at most six times, and `1000000 * m` is divisible by `10 ^ 6`, so those
divisions are exact; when no scale is left to shed the value already exceeds
`u64::MAX` and the Rust multiplication itself panics, which `none` covers. -/
def decimal_to_token_u64 (amt : Decimal) : Option Nat :=
  let scaled : Decimal := ⟨1000000 * amt.m, amt.s⟩
  let rounded :=
    if 0 < scaled.s then round_dp_with_strategy scaled 0 .midpointTowardZero else scaled
  if 0 ≤ rounded.m ∧ rounded.m ≤ u64_max then some rounded.m.toNat else none

/-- Rounding of a rational to the nearest integer with ties toward zero,
stated on values rather than on decimal representations. -/
def ratMidpointTowardZero (q : ℚ) : Int :=
  if q < 0 then -(⌊|q|⌋ + (if (1 : ℚ) / 2 < |q| - ⌊|q|⌋ then 1 else 0))
  else ⌊|q|⌋ + (if (1 : ℚ) / 2 < |q| - ⌊|q|⌋ then 1 else 0)

/-- Order side (`Side` in the types module; used by
`TradingClient::create_market_order`). -/
inductive Side where
  | buy
  | sell
deriving DecidableEq

/-- One price level of an order-book snapshot: a price and the size resting
at that price.  Bids are listed by descending price and asks by ascending
price (`OrderBookSnapshot` of the data model). -/
structure BookLevel where
  price : ℚ
  size : ℚ
deriving DecidableEq

/-- An order-book snapshot (`OrderBookSummary`): bid levels and ask
levels. -/
structure OrderBookSummary where
  bids : List BookLevel
  asks : List BookLevel
deriving DecidableEq

/-- Errors of order construction relevant here. -/
inductive OrderErr where
  | invalidOrder
deriving DecidableEq

/-- The side of the book a market order consumes
(src/client/trading.rs:87-91): buys take from the asks, sells take from the
bids. -/
def market_book_side (side : Side) (book : OrderBookSummary) : List BookLevel :=
  match side with
  | .buy => book.asks
  | .sell => book.bids

/-- Modelled from the spec: the level walk of `calculate_market_price`
(src/orders/price.rs is not among the provided sources; only its caller
`TradingClient::create_market_order` is).  Walk the levels in the book's
natural order; at each level consume `min(level.size, remaining)`; once the
remaining amount fits inside the current level the accumulated cost plus the
final partial level is divided by the requested amount, giving the
size-weighted average price; an exhausted book is insufficient depth. -/
def market_price_walk : List BookLevel → ℚ → ℚ → ℚ → Except OrderErr ℚ
  | [], _, _, _ => .error .invalidOrder
  | l :: rest, remaining, cost, amount =>
    if remaining ≤ l.size then .ok ((cost + l.price * remaining) / amount)
    else market_price_walk rest (remaining - l.size) (cost + l.price * l.size) amount

/-- Modelled from the spec: `calculate_market_price` applied to one side of
the book and the requested amount. -/
def calculate_market_price (levels : List BookLevel) (amount : ℚ) : Except OrderErr ℚ :=
  market_price_walk levels amount 0 amount

/-- The market price derivation of `TradingClient::create_market_order`
(src/client/trading.rs:77-100): select the opposing side of the book for the
order's side, then derive the execution price from it. -/
def create_market_order_price (side : Side) (book : OrderBookSummary) (amount : ℚ) :
    Except OrderErr ℚ :=
  calculate_market_price (market_book_side side book) amount

/-- The total size resting in a list of levels. -/
def book_depth (levels : List BookLevel) : ℚ := (levels.map BookLevel.size).sum

/-- Errors of the websocket layer (src/error.rs), restricted to the variants
the stream wrapper distinguishes. -/
inductive WsErr where
  | connectionClosed
  | webSocket (code : Nat)
  | jsonErr
  | reconnectFailed (attempts : Nat) (lastError : String)
deriving DecidableEq

/-- Model of `ReconnectConfig` (src/websocket/stream.rs:12-21).  Durations
are rational seconds; the delays the claims exercise (integer seconds times
small powers of two, capped at sixty) are computed exactly by the `f64`
arithmetic of the Rust code, so rational arithmetic is faithful on them. -/
structure ReconnectConfig where
  initial_delay : ℚ
  max_delay : ℚ
  multiplier : ℚ
  max_attempts : Option Nat
deriving DecidableEq

/-- `ReconnectConfig::default()` (src/websocket/stream.rs:23-32): one second
initial delay, sixty seconds maximum, multiplier two, unlimited attempts. -/
def ReconnectConfig.default : ReconnectConfig := ⟨1, 60, 2, none⟩

/-- Model of `ExponentialBackoff` (src/websocket/stream.rs:36-40). -/
structure ExponentialBackoff where
  current_delay : ℚ
  max_delay : ℚ
  multiplier : ℚ
deriving DecidableEq

/-- `ExponentialBackoff::new` (src/websocket/stream.rs:43-49). -/
def ExponentialBackoff.new (initial_delay max_delay multiplier : ℚ) : ExponentialBackoff :=
  ⟨initial_delay, max_delay, multiplier⟩

/-- `ExponentialBackoff::next_delay` (src/websocket/stream.rs:52-59):
return the current delay and advance it to
`min(current * multiplier, max_delay)`. -/
def ExponentialBackoff.next_delay (b : ExponentialBackoff) : ℚ × ExponentialBackoff :=
  (b.current_delay, ⟨min (b.current_delay * b.multiplier) b.max_delay, b.max_delay, b.multiplier⟩)

/-- `ExponentialBackoff::reset` (src/websocket/stream.rs:62-64).  The Rust
body sets the delay to the constant `Duration::from_secs(1)` — one second —
not to the configured initial delay its own doc comment promises. -/
def ExponentialBackoff.reset (b : ExponentialBackoff) : ExponentialBackoff :=
  ⟨1, b.max_delay, b.multiplier⟩

/-- The successive delays produced by repeatedly calling `next_delay`. -/
def delays (b : ExponentialBackoff) : Nat → List ℚ
  | 0 => []
  | n + 1 =>
    let p := b.next_delay
    p.1 :: delays p.2 n

/-- One event of an inner stream script: a successfully parsed item or an
`Err` item. -/
inductive InnerEv (T : Type) where
  | item (x : T)
  | fail (e : WsErr)
deriving DecidableEq

/-- The deterministic environment of a `ReconnectingStream`: the result of
the n-th invocation of the connect operation, either an error or a fresh
inner stream given by the finite script of items it will yield before
ending.  Connect attempts and timer sleeps always complete at the next
poll. -/
def ConnectWorld (T : Type) := Nat → Except WsErr (List (InnerEv T))

/-- Model of `StreamState` (src/websocket/stream.rs:68-83).  `connected`
carries the rest of the inner stream's script; `connecting` carries the
attempt counter (the boxed in-flight future needs no model because connects
complete at the next poll). -/
inductive StreamState (T : Type) where
  | connected (rest : List (InnerEv T))
  | reconnecting (attempts : Nat) (delay : ℚ)
  | connecting (attempts : Nat)
  | terminated
deriving DecidableEq

/-- Model of `ReconnectingStream` (src/websocket/stream.rs:120-136).
`connects` counts the connect invocations performed so far and indexes the
`ConnectWorld`. -/
structure ReconnectingStream (T : Type) where
  state : StreamState T
  config : ReconnectConfig
  backoff : ExponentialBackoff
  connects : Nat
deriving DecidableEq

/-- `ReconnectingStream::new` (src/websocket/stream.rs:150-167): created in
`Connecting` with zero attempts and a backoff at the configured initial
delay. -/
def ReconnectingStream.new (T : Type) (config : ReconnectConfig) : ReconnectingStream T :=
  ⟨.connecting 0, config,
   ExponentialBackoff.new config.initial_delay config.max_delay config.multiplier, 0⟩

deriving instance DecidableEq for Except

/-- The result of one `poll_next` call: `ready none` is `Poll::Ready(None)`
(stream ended), `ready (some it)` is an emitted item, `pending` is
`Poll::Pending`. -/
inductive PollRes (T : Type) where
  | ready (item : Option (Except WsErr T))
  | pending
deriving DecidableEq

/-- Model of `ReconnectingStream::handle_disconnection`
(src/websocket/stream.rs:170-186): if a maximum is configured and
`attempts` reached it, terminate and emit `ReconnectFailed`; otherwise pull
the next backoff delay and move to `Reconnecting`. -/
def handle_disconnection {T : Type} (m : ReconnectingStream T) (attempts : Nat) :
    ReconnectingStream T × PollRes T :=
  match m.config.max_attempts with
  | some maxA =>
    if maxA ≤ attempts then
      (⟨.terminated, m.config, m.backoff, m.connects⟩,
       .ready (some (.error
         (.reconnectFailed attempts "Maximum reconnection attempts reached"))))
    else
      let p := m.backoff.next_delay
      (⟨.reconnecting attempts p.1, m.config, p.2, m.connects⟩, .pending)
  | none =>
    let p := m.backoff.next_delay
    (⟨.reconnecting attempts p.1, m.config, p.2, m.connects⟩, .pending)

/-- One iteration of the `loop` in `ReconnectingStream::poll_next`
(src/websocket/stream.rs:197-289); `none` in the second component is the
`continue` of the Rust loop, `some r` a `return r`.

* `Connected` with a pending item: emit it and reset the backoff (202-206).
* `Connected` with `Err(ConnectionClosed)`: `handle_disconnection(1)`,
  returning its result — the error itself is not emitted (207-210).
* `Connected` with any other `Err`: run `handle_disconnection(1)` for its
  state change but emit the error (211-215).
* `Connected` exhausted (`Ready(None)`): `handle_disconnection(1)` (216-219).
* `Reconnecting`: the sleep completes; move to `Connecting` (225-252).
* `Connecting`: on success enter `Connected` and reset the backoff
  (263-267); on failure bump the attempt counter (from zero straight to
  one) and `handle_disconnection` (268-273).
* `Terminated`: `Ready(None)` (284-286). -/
def microStep {T : Type} (w : ConnectWorld T) (m : ReconnectingStream T) :
    ReconnectingStream T × Option (PollRes T) :=
  match m.state with
  | .connected rest =>
    match rest with
    | .item x :: rest2 =>
      (⟨.connected rest2, m.config, m.backoff.reset, m.connects⟩,
       some (.ready (some (.ok x))))
    | .fail .connectionClosed :: _ =>
      let r := handle_disconnection m 1
      (r.1, some r.2)
    | .fail e :: _ =>
      let r := handle_disconnection m 1
      (r.1, some (.ready (some (.error e))))
    | [] =>
      let r := handle_disconnection m 1
      (r.1, some r.2)
  | .reconnecting attempts _ =>
    (⟨.connecting attempts, m.config, m.backoff, m.connects⟩, none)
  | .connecting attempts =>
    match w m.connects with
    | .ok script =>
      (⟨.connected script, m.config, m.backoff.reset, m.connects + 1⟩, none)
    | .error _ =>
      let next_attempts := if attempts = 0 then 1 else attempts + 1
      let r := handle_disconnection
        (⟨m.state, m.config, m.backoff, m.connects + 1⟩ : ReconnectingStream T) next_attempts
      (r.1, some r.2)
  | .terminated => (m, some (.ready none))

/-- One full `poll_next` call: iterate the loop until it returns.  In the
modelled environment every path returns within three iterations (entering
`Connected` from `Connecting` immediately polls the inner script), so three
chained steps suffice; the final fallback is unreachable. -/
def pollNext {T : Type} (w : ConnectWorld T) (m : ReconnectingStream T) :
    ReconnectingStream T × PollRes T :=
  match microStep w m with
  | (m1, some r) => (m1, r)
  | (m1, none) =>
    match microStep w m1 with
    | (m2, some r) => (m2, r)
    | (m2, none) =>
      match microStep w m2 with
      | (m3, some r) => (m3, r)
      | (m3, none) => (m3, .pending)

/-- Drive the stream as its single consumer does: poll repeatedly (a
`Pending` poll is simply polled again once its timer or connect completes),
collecting the emitted items, stopping at `Ready(None)` or when the fuel
runs out. -/
def run {T : Type} (w : ConnectWorld T) : Nat → ReconnectingStream T → List (Except WsErr T)
  | 0, _ => []
  | n + 1, m =>
    let r := pollNext w m
    match r.2 with
    | .ready none => []
    | .ready (some it) => it :: run w n r.1
    | .pending => run w n r.1

/-- The machine after `n` full polls. -/
def pollIter {T : Type} (w : ConnectWorld T) : Nat → ReconnectingStream T → ReconnectingStream T
  | 0, m => m
  | n + 1, m => pollIter w n (pollNext w m).1

/-- The machine after `n` loop iterations. -/
def microIter {T : Type} (w : ConnectWorld T) : Nat → ReconnectingStream T → ReconnectingStream T
  | 0, m => m
  | n + 1, m => microIter w n (microStep w m).1

/-- A world whose connect operation always fails. -/
def failWorld : ConnectWorld Nat := fun _ => .error (.webSocket 0)

/-- A world whose connect operation always succeeds with an inner stream
that immediately yields `Err(ConnectionClosed)`. -/
def ccWorld : ConnectWorld Nat := fun _ => .ok [.fail .connectionClosed]

/-- A reconnect configuration with `max_attempts = 3` and otherwise default
values. -/
def cfg3 : ReconnectConfig := ⟨1, 60, 2, some 3⟩

/-- The four names of `StreamState` variants, for stating which transitions
the lifecycle may take. -/
inductive StateShape where
  | connectingS
  | connectedS
  | reconnectingS
  | terminatedS
deriving DecidableEq

/-- The variant of a stream state. -/
def shapeOf {T : Type} : StreamState T → StateShape
  | .connected _ => .connectedS
  | .reconnecting _ _ => .reconnectingS
  | .connecting _ => .connectingS
  | .terminated => .terminatedS

/-- The transitions the specification's lifecycle permits: staying put,
`Connecting → Connected`, `Connected → Reconnecting`,
`Reconnecting → Connecting`, and entering `Terminated` from any state but
itself. -/
def claimLegal (a b : StateShape) : Prop :=
  a = b ∨
  (a = .connectingS ∧ b = .connectedS) ∨
  (a = .connectedS ∧ b = .reconnectingS) ∨
  (a = .reconnectingS ∧ b = .connectingS) ∨
  (¬ a = .terminatedS ∧ b = .terminatedS)

instance (a b : StateShape) : Decidable (claimLegal a b) := by
  unfold claimLegal
  infer_instance

/-- The lifecycle as the code implements it: additionally
`Connecting → Reconnecting` when the connect operation itself fails. -/
def codeLegal (a b : StateShape) : Prop :=
  claimLegal a b ∨ (a = .connectingS ∧ b = .reconnectingS)

instance (a b : StateShape) : Decidable (codeLegal a b) := by
  unfold codeLegal
  infer_instance

/-- The parse-relevant content of one websocket text frame, with parsing
outcomes represented as data (src/websocket/market.rs:133-196; the user
client shares the array logic, src/websocket/user.rs:186-208): the frame is
blank, a textual ping/pong, a JSON array whose elements individually parse
to an event or fail, or a single JSON object. -/
inductive TextPayload (E : Type) where
  | blank
  | pingPong
  | arrayOf (elems : List (Option E))
  | singleObject (elem : Option E)
deriving DecidableEq

/-- The text-frame handling of the event stream returned by
`MarketWsClient::subscribe_with_handle` (src/websocket/market.rs:133-196):
blank and ping/pong frames are dropped; for a JSON array the first element
is parsed and emitted (a parse failure becomes an `Err(Json)` item) and an
empty array is dropped; a single object is parsed and emitted. -/
def processTextMessage {E : Type} : TextPayload E → Option (Except WsErr E)
  | .blank => none
  | .pingPong => none
  | .arrayOf [] => none
  | .arrayOf (some e :: _) => some (.ok e)
  | .arrayOf (none :: _) => some (.error .jsonErr)
  | .singleObject (some e) => some (.ok e)
  | .singleObject none => some (.error .jsonErr)

/-- The output items a single text frame contributes to the stream. -/
def itemsOfText {E : Type} (t : TextPayload E) : List (Except WsErr E) :=
  (processTextMessage t).toList

/-- The always-failing scenario with `max_attempts = 3`: the machine as
created. -/
def failM0 : ReconnectingStream Nat := ReconnectingStream.new Nat cfg3

/-- The always-failing scenario after one poll. -/
def failM1 : ReconnectingStream Nat := (pollNext failWorld failM0).1

/-- The always-failing scenario after two polls. -/
def failM2 : ReconnectingStream Nat := (pollNext failWorld failM1).1

/-- The always-failing scenario after three polls. -/
def failM3 : ReconnectingStream Nat := (pollNext failWorld failM2).1

/-- The scale of a rounded decimal: unchanged when already within `dp`,
otherwise exactly `dp`. -/
theorem scale_round_dp_with_strategy (d : Decimal) (dp : Nat) (strategy : RoundingStrategy) :
    (round_dp_with_strategy d dp strategy).s = if d.s ≤ dp then d.s else dp := by
  unfold round_dp_with_strategy
  split <;> rfl

/-- C1: `fix_amount_rounding` implements the two-stage policy the
specification mandates (away-from-zero to `amount + 4` places, then toward
zero to `amount` places if still over-precision, inputs already within
precision untouched), and the returned value never has more than `amount`
fractional digits, for arbitrary high-precision inputs. -/
theorem C1_fix_amount_rounding_policy (amt : Decimal) (rc : RoundConfig) :
    fix_amount_rounding amt rc = fix_amount_rounding_spec amt rc ∧
    (fix_amount_rounding amt rc).s ≤ rc.amount := by
  have hs2 := scale_round_dp_with_strategy
    (round_dp_with_strategy amt (rc.amount + 4) .awayFromZero) rc.amount .toZero
  constructor
  · simp only [fix_amount_rounding, fix_amount_rounding_spec]
    split_ifs <;> first | rfl | omega
  · simp only [fix_amount_rounding]
    split_ifs with h1 h2
    · rw [hs2]
      split <;> omega
    · omega
    · omega

theorem floor_natCast_div (n p : Nat) (hp : 0 < p) :
    ⌊(n : ℚ) / (p : ℚ)⌋ = ((n / p : Nat) : Int) := by
  have hp' : (0 : ℚ) < (p : ℚ) := by exact_mod_cast hp
  rw [Int.floor_eq_iff]
  constructor
  · rw [le_div_iff hp']
    exact_mod_cast Nat.div_mul_le_self n p
  · rw [div_lt_iff hp']
    have key : n < (n / p + 1) * p := by
      have h1 := Nat.div_add_mod n p
      have h2 := Nat.mod_lt n hp
      calc n = p * (n / p) + n % p := h1.symm
        _ < p * (n / p) + p := by omega
        _ = (n / p + 1) * p := by ring
    exact_mod_cast key

theorem ratMidpointTowardZero_natCast_div (n p : Nat) (hp : 0 < p) :
    ratMidpointTowardZero ((n : ℚ) / (p : ℚ)) = (magMidpointTowardZero n p : Int) := by
  have hp' : (0 : ℚ) < (p : ℚ) := by exact_mod_cast hp
  have hq : (0 : ℚ) ≤ (n : ℚ) / (p : ℚ) := by positivity
  have hfrac : (n : ℚ) / (p : ℚ) - ((n / p : Nat) : ℚ) = ((n % p : Nat) : ℚ) / (p : ℚ) := by
    have h1 : ((p : ℚ) * ((n / p : Nat) : ℚ) + ((n % p : Nat) : ℚ)) = (n : ℚ) := by
      exact_mod_cast Nat.div_add_mod n p
    field_simp
    linarith
  have hcond : ((1 : ℚ) / 2 < ((n % p : Nat) : ℚ) / (p : ℚ)) ↔ (p < 2 * (n % p)) := by
    rw [div_lt_div_iff (by norm_num) hp']
    constructor
    · intro h
      have : (p : ℚ) < 2 * ((n % p : Nat) : ℚ) := by linarith
      exact_mod_cast this
    · intro h
      have : (p : ℚ) < 2 * ((n % p : Nat) : ℚ) := by exact_mod_cast h
      linarith
  unfold ratMidpointTowardZero magMidpointTowardZero
  rw [if_neg (not_lt.mpr hq), abs_of_nonneg hq, floor_natCast_div n p hp]
  rw [Int.cast_natCast, hfrac]
  simp only [hcond]
  split_ifs <;> push_cast <;> ring

theorem ratMidpointTowardZero_neg (q : ℚ) :
    ratMidpointTowardZero (-q) = -(ratMidpointTowardZero q) := by
  rcases lt_trichotomy q 0 with h | h | h
  · unfold ratMidpointTowardZero
    rw [if_neg (by linarith), if_pos h, abs_neg, neg_neg]
  · subst h
    norm_num [ratMidpointTowardZero]
  · unfold ratMidpointTowardZero
    rw [if_pos (by linarith), if_neg (not_lt.mpr h.le), abs_neg]

theorem ratMidpointTowardZero_intCast (k : Int) :
    ratMidpointTowardZero ((k : ℚ)) = k := by
  have habs : |(k : ℚ)| = ((k.natAbs : Nat) : ℚ) := by
    rw [Int.cast_natAbs, Int.cast_abs]
  have hfloor : ⌊|(k : ℚ)|⌋ = ((k.natAbs : Nat) : Int) := by
    rw [habs, Int.floor_natCast]
  have hfrac : ¬ ((1 : ℚ) / 2 < |(k : ℚ)| - ⌊|(k : ℚ)|⌋) := by
    rw [habs, Int.floor_natCast, Int.cast_natCast, sub_self]
    norm_num
  unfold ratMidpointTowardZero
  rcases lt_or_le k 0 with h | h
  · rw [if_pos (by exact_mod_cast h : (k : ℚ) < 0), if_neg hfrac, hfloor]
    simp only [add_zero]
    omega
  · rw [if_neg (by exact_mod_cast not_lt.mpr h : ¬ (k : ℚ) < 0), if_neg hfrac, hfloor]
    simp only [add_zero]
    omega

theorem ratMidpointTowardZero_intCast_div (a : Int) (p : Nat) (hp : 0 < p) :
    ratMidpointTowardZero ((a : ℚ) / (p : ℚ)) =
      Int.sign a * (magMidpointTowardZero a.natAbs p : Int) := by
  rcases lt_trichotomy a 0 with h | h | h
  · have hna : (a : ℚ) / (p : ℚ) = -(((a.natAbs : Nat) : ℚ) / (p : ℚ)) := by
      have hq : ((a.natAbs : Nat) : ℚ) = -(a : ℚ) := by
        rw [Int.cast_natAbs, Int.cast_abs]
        exact abs_of_neg (by exact_mod_cast h)
      rw [hq]
      ring
    rw [hna, ratMidpointTowardZero_neg, ratMidpointTowardZero_natCast_div _ _ hp]
    rw [Int.sign_eq_neg_one_of_neg h]
    ring
  · subst h
    simp [ratMidpointTowardZero, magMidpointTowardZero, Nat.zero_mod, Nat.zero_div]
  · have hna : (a : ℚ) / (p : ℚ) = ((a.natAbs : Nat) : ℚ) / (p : ℚ) := by
      have hq : ((a.natAbs : Nat) : ℚ) = (a : ℚ) := by
        rw [Int.cast_natAbs, Int.cast_abs]
        exact abs_of_pos (by exact_mod_cast h)
      rw [hq]
    rw [hna, ratMidpointTowardZero_natCast_div _ _ hp]
    rw [Int.sign_eq_one_of_pos h]
    ring

/-- `decimal_to_token_u64` computes exactly the value-level conversion: scale
the denoted rational by `10 ^ 6`, round to the nearest integer with ties
toward zero, and accept the result exactly when it lies in `[0, u64::MAX]`. -/
theorem decimal_to_token_u64_eq_ratMidpoint (x : Decimal) :
    decimal_to_token_u64 x =
      (if 0 ≤ ratMidpointTowardZero (x.toRat * 10 ^ 6) ∧
          ratMidpointTowardZero (x.toRat * 10 ^ 6) ≤ u64_max
       then some (ratMidpointTowardZero (x.toRat * 10 ^ 6)).toNat
       else none) := by
  obtain ⟨m, s⟩ := x
  by_cases hs : 0 < s
  · have hval : Decimal.toRat ⟨m, s⟩ * 10 ^ 6 =
        ((1000000 * m : Int) : ℚ) / ((10 ^ s : Nat) : ℚ) := by
      unfold Decimal.toRat
      push_cast
      ring
    have hmid := ratMidpointTowardZero_intCast_div (1000000 * m) (10 ^ s) (by positivity)
    have hround : round_dp_with_strategy ⟨1000000 * m, s⟩ 0 .midpointTowardZero =
        ⟨Int.sign (1000000 * m) *
          (magMidpointTowardZero (1000000 * m).natAbs (10 ^ s) : Int), 0⟩ := by
      have hcond : ¬ ((⟨1000000 * m, s⟩ : Decimal).s ≤ 0) := by
        show ¬ s ≤ 0
        omega
      unfold round_dp_with_strategy
      rw [if_neg hcond]
      simp only [Nat.sub_zero]
    unfold decimal_to_token_u64
    simp only [if_pos hs, hround, hval, hmid]
  · have hs0 : s = 0 := by omega
    subst hs0
    have hval : Decimal.toRat ⟨m, 0⟩ * 10 ^ 6 = ((1000000 * m : Int) : ℚ) := by
      unfold Decimal.toRat
      push_cast
      ring
    unfold decimal_to_token_u64
    simp only [if_neg (by omega : ¬ (0 : Nat) < 0), hval,
      ratMidpointTowardZero_intCast]

/-- C3: `decimal_to_token_u64` converts to integer minor units with scale
factor `10 ^ 6`: the amount `1.5` (mantissa 15, scale 1) maps to
`1_500_000`, and for every decimal with at most 6 fractional digits whose
conversion returns a value, dividing that value back by `10 ^ 6` recovers
the decimal's denoted value exactly (no rounding occurs within 6-digit
precision). -/
theorem C3_decimal_to_token_u64_minor_units :
    decimal_to_token_u64 ⟨15, 1⟩ = some 1500000 ∧
    ∀ (x : Decimal) (n : Nat), x.s ≤ 6 → decimal_to_token_u64 x = some n →
      (n : ℚ) / 10 ^ 6 = x.toRat := by
  constructor
  · rfl
  · intro x n hs h
    have hk : x.toRat * 10 ^ 6 = ((10 ^ (6 - x.s) * x.m : Int) : ℚ) := by
      unfold Decimal.toRat
      have h10 : (10 : ℚ) ^ 6 = 10 ^ (6 - x.s) * 10 ^ x.s := by
        rw [← pow_add]
        congr 1
        omega
      rw [h10]
      push_cast
      field_simp
      ring
    have hb := decimal_to_token_u64_eq_ratMidpoint x
    rw [h, hk, ratMidpointTowardZero_intCast] at hb
    by_cases hrange : 0 ≤ 10 ^ (6 - x.s) * x.m ∧ 10 ^ (6 - x.s) * x.m ≤ u64_max
    · rw [if_pos hrange] at hb
      have hn : (n : Int) = 10 ^ (6 - x.s) * x.m := by
        have := Option.some.inj hb
        omega
      have hnq : (n : ℚ) = ((10 ^ (6 - x.s) * x.m : Int) : ℚ) := by
        exact_mod_cast congrArg (fun z : Int => (z : ℚ)) hn
      rw [hnq, ← hk]
      field_simp
    · rw [if_neg hrange] at hb
      cases hb

/-- C3 witness: the round-trip instantiated at the concrete amount `1.5`. -/
theorem C3_witness :
    (1500000 : ℚ) / 10 ^ 6 = Decimal.toRat ⟨15, 1⟩ :=
  C3_decimal_to_token_u64_minor_units.2 ⟨15, 1⟩ 1500000 (by decide) rfl

/-- C10: `decimal_to_token_u64` is partial at its interface: it returns
`none` (the Rust code panics) exactly when the denoted value scaled by
`10 ^ 6` and rounded to an integer with ties toward zero is negative or
exceeds `u64::MAX`, and it returns that rounded value for every input in
the non-negative representable range. -/
theorem C10_decimal_to_token_u64_partiality (x : Decimal) :
    (decimal_to_token_u64 x = none ↔
      ratMidpointTowardZero (x.toRat * 10 ^ 6) < 0 ∨
        u64_max < ratMidpointTowardZero (x.toRat * 10 ^ 6)) ∧
    ∀ n : Nat, decimal_to_token_u64 x = some n →
      (n : Int) = ratMidpointTowardZero (x.toRat * 10 ^ 6) := by
  have hb := decimal_to_token_u64_eq_ratMidpoint x
  rw [hb]
  constructor
  · split_ifs with hc
    · constructor
      · intro h
        cases h
      · intro h
        omega
    · constructor
      · intro _
        omega
      · intro _
        rfl
  · intro n h
    split_ifs at h with hc
    have := Option.some.inj h
    omega

/-- C10 witness: the partiality characterization instantiated at the
concrete amounts `1.5` (in range) and `-3` (negative, panics). -/
theorem C10_witness :
    (1500000 : Int) = ratMidpointTowardZero (Decimal.toRat ⟨15, 1⟩ * 10 ^ 6) ∧
    decimal_to_token_u64 ⟨-3, 0⟩ = none :=
  ⟨(C10_decimal_to_token_u64_partiality ⟨15, 1⟩).2 1500000 rfl, rfl⟩

theorem book_depth_nonneg (levels : List BookLevel)
    (h : ∀ l ∈ levels, 0 ≤ l.size) : 0 ≤ book_depth levels := by
  unfold book_depth
  apply List.sum_nonneg
  intro x hx
  obtain ⟨l, hl, rfl⟩ := List.mem_map.mp hx
  exact h l hl

theorem book_depth_cons (l : BookLevel) (rest : List BookLevel) :
    book_depth (l :: rest) = l.size + book_depth rest := by
  unfold book_depth
  simp

/-- The level walk fails with `InvalidOrder` exactly when the listed depth
is short of the remaining amount. -/
theorem market_price_walk_error_iff (levels : List BookLevel) :
    ∀ (remaining cost amount : ℚ),
      0 < remaining → (∀ l ∈ levels, 0 ≤ l.size) →
      (market_price_walk levels remaining cost amount = .error .invalidOrder ↔
        book_depth levels < remaining) := by
  induction levels with
  | nil =>
    intro remaining cost amount h0 _
    constructor
    · intro _
      simpa [book_depth] using h0
    · intro _
      rfl
  | cons l rest ih =>
    intro remaining cost amount h0 hnn
    have hrest : ∀ x ∈ rest, 0 ≤ x.size := fun x hx => hnn x (List.mem_cons_of_mem _ hx)
    unfold market_price_walk
    by_cases hle : remaining ≤ l.size
    · rw [if_pos hle]
      constructor
      · intro h
        cases h
      · intro h
        exfalso
        have h1 : 0 ≤ book_depth rest := book_depth_nonneg rest hrest
        rw [book_depth_cons] at h
        linarith
    · rw [if_neg hle]
      have h0' : 0 < remaining - l.size := by
        have := not_le.mp hle
        linarith
      rw [ih (remaining - l.size) (cost + l.price * l.size) amount h0' hrest,
        book_depth_cons]
      constructor <;> intro <;> linarith

/-- C2: the market-order execution price is derived against the opposing
book side (buys consume asks, sells consume bids) as the size-weighted
average over the levels consumed in book order: against asks
`[(0.40, 10), (0.45, 20)]`, an amount of `15` yields
`(0.40 * 10 + 0.45 * 5) / 15`, a book too shallow for the requested amount
fails with `InvalidOrder` (in general: failure happens exactly when the
book side's depth is below the amount), and in particular amount `40`
against that book fails. -/
theorem C2_market_order_price_derivation :
    (∀ book : OrderBookSummary,
      market_book_side .buy book = book.asks ∧
        market_book_side .sell book = book.bids) ∧
    create_market_order_price .buy ⟨[], [⟨2/5, 10⟩, ⟨9/20, 20⟩]⟩ 15 =
      .ok ((2/5 * 10 + 9/20 * 5) / 15) ∧
    (∀ (levels : List BookLevel) (amount : ℚ),
      0 < amount → (∀ l ∈ levels, 0 ≤ l.size) →
      (calculate_market_price levels amount = .error .invalidOrder ↔
        book_depth levels < amount)) ∧
    create_market_order_price .buy ⟨[], [⟨2/5, 10⟩, ⟨9/20, 20⟩]⟩ 40 =
      .error .invalidOrder := by
  refine ⟨fun book => ⟨rfl, rfl⟩,
    by norm_num [create_market_order_price, market_book_side, calculate_market_price,
      market_price_walk], ?_,
    by norm_num [create_market_order_price, market_book_side, calculate_market_price,
      market_price_walk]⟩
  intro levels amount h0 hnn
  exact market_price_walk_error_iff levels amount 0 amount h0 hnn

/-- C2 witness: the insufficient-depth characterization instantiated on the
example book (depth 30) and amount 40. -/
theorem C2_witness :
    calculate_market_price [⟨2/5, 10⟩, ⟨9/20, 20⟩] 40 = .error .invalidOrder :=
  (C2_market_order_price_derivation.2.2.1 [⟨2/5, 10⟩, ⟨9/20, 20⟩] 40 (by norm_num)
      (by
        intro l hl
        fin_cases hl <;> norm_num)).mpr
    (by norm_num [book_depth])

/-- C4: the successive backoff delays for the default parameters
(initial 1 s, multiplier 2, maximum 60 s) are `1, 2, 4, 8, 16, 32, 60, 60`,
but `ExponentialBackoff::reset` sets the delay to the hard-coded constant
one second, not to the configured initial delay: with an initial delay of
five seconds, a backoff that was just reset (as happens after every
successfully received item) continues from 1 s, contradicting both the
claim and the Rust function's own doc comment. -/
theorem C4_backoff_reset_is_constant_one :
    delays (ExponentialBackoff.new 1 60 2) 8 = [1, 2, 4, 8, 16, 32, 60, 60] ∧
    (ExponentialBackoff.new 5 60 2).current_delay = 5 ∧
    (ExponentialBackoff.new 5 60 2).reset.current_delay = 1 ∧
    ¬ (ExponentialBackoff.new 5 60 2).reset.current_delay =
        (ExponentialBackoff.new 5 60 2).current_delay ∧
    ((microStep (fun _ => .ok ([] : List (InnerEv Nat)))
        ⟨.connected [.item 0], ⟨5, 60, 2, none⟩, ⟨40, 60, 2⟩, 1⟩).1).backoff.current_delay
      = 1 := by
  refine ⟨?_, rfl, rfl, ?_, rfl⟩
  · norm_num [delays, ExponentialBackoff.next_delay, ExponentialBackoff.new, min_def]
  · norm_num [ExponentialBackoff.reset, ExponentialBackoff.new]

theorem run_terminated {T : Type} (w : ConnectWorld T) (fuel : Nat)
    (m : ReconnectingStream T) (h : m.state = .terminated) : run w fuel m = [] := by
  cases fuel with
  | zero => rfl
  | succ n =>
    have hm : microStep w m = (m, some (.ready none)) := by
      unfold microStep
      rw [h]
    have hp : pollNext w m = (m, .ready none) := by
      unfold pollNext
      rw [hm]
    simp only [run]
    rw [hp]

theorem run_pending_step {T : Type} (w : ConnectWorld T) (k : Nat)
    (m : ReconnectingStream T) (hp : (pollNext w m).2 = .pending) :
    run w (k + 1) m = run w k (pollNext w m).1 := by
  simp only [run]
  rw [hp]

theorem run_emit_step {T : Type} (w : ConnectWorld T) (k : Nat)
    (m : ReconnectingStream T) (it : Except WsErr T)
    (hp : (pollNext w m).2 = .ready (some it)) :
    run w (k + 1) m = it :: run w k (pollNext w m).1 := by
  simp only [run]
  rw [hp]

theorem pollNext_failWorld_none (m : ReconnectingStream Nat)
    (hcfg : m.config.max_attempts = none)
    (hst : (∃ a, m.state = .connecting a) ∨ (∃ a d, m.state = .reconnecting a d)) :
    (pollNext failWorld m).2 = .pending ∧
    (pollNext failWorld m).1.config = m.config ∧
    (∃ a d, (pollNext failWorld m).1.state = .reconnecting a d) := by
  obtain ⟨st, ⟨ci, cm, cmu, cmax⟩, bo, cn⟩ := m
  have hcfg2 : cmax = none := hcfg
  subst hcfg2
  rcases hst with ⟨a, h⟩ | ⟨a, d, h⟩
  · have h2 : st = .connecting a := h
    subst h2
    exact ⟨rfl, rfl, _, _, rfl⟩
  · have h2 : st = .reconnecting a d := h
    subst h2
    exact ⟨rfl, rfl, _, _, rfl⟩

theorem run_failWorld_no_items :
    ∀ (fuel : Nat) (m : ReconnectingStream Nat),
      m.config.max_attempts = none →
      ((∃ a, m.state = .connecting a) ∨ (∃ a d, m.state = .reconnecting a d)) →
      run failWorld fuel m = [] := by
  intro fuel
  induction fuel with
  | zero =>
    intro m _ _
    rfl
  | succ n ih =>
    intro m hcfg hst
    obtain ⟨hp, hc, hs⟩ := pollNext_failWorld_none m hcfg hst
    rw [run_pending_step failWorld n m hp]
    exact ih _ (by rw [hc]; exact hcfg) (Or.inr hs)

theorem pollIter_failWorld_none :
    ∀ (fuel : Nat) (m : ReconnectingStream Nat),
      m.config.max_attempts = none →
      ((∃ a, m.state = .connecting a) ∨ (∃ a d, m.state = .reconnecting a d)) →
      (pollIter failWorld fuel m).config.max_attempts = none ∧
      ((∃ a, (pollIter failWorld fuel m).state = .connecting a) ∨
        (∃ a d, (pollIter failWorld fuel m).state = .reconnecting a d)) := by
  intro fuel
  induction fuel with
  | zero =>
    intro m hcfg hst
    exact ⟨hcfg, hst⟩
  | succ n ih =>
    intro m hcfg hst
    obtain ⟨_, hc, hs⟩ := pollNext_failWorld_none m hcfg hst
    exact ih _ (by rw [hc]; exact hcfg) (Or.inr hs)

/-- C5: with `max_attempts = 3` and a connect operation that always fails,
the stream emits exactly one item, `Err(ReconnectFailed{attempts: 3, ..})`,
is in `Terminated` after the three polls that exhaust the budget, and every
later poll yields nothing; with `max_attempts` unconfigured the same
always-failing connect operation produces no items at any horizon and the
machine never reaches `Terminated` (it keeps retrying). -/
theorem C5_reconnect_failed_terminal :
    (∀ fuel : Nat,
      run failWorld (fuel + 4) (ReconnectingStream.new Nat cfg3) =
        [.error (.reconnectFailed 3 "Maximum reconnection attempts reached")]) ∧
    (pollIter failWorld 3 (ReconnectingStream.new Nat cfg3)).state = .terminated ∧
    (∀ fuel : Nat,
      run failWorld fuel (ReconnectingStream.new Nat ReconnectConfig.default) = []) ∧
    (∀ fuel : Nat,
      (pollIter failWorld fuel
          (ReconnectingStream.new Nat ReconnectConfig.default)).state ≠
        .terminated) := by
  refine ⟨?_, rfl, ?_, ?_⟩
  · intro fuel
    show run failWorld (fuel + 3 + 1) failM0 = _
    rw [run_pending_step failWorld (fuel + 3) failM0 rfl]
    show run failWorld (fuel + 2 + 1) failM1 = _
    rw [run_pending_step failWorld (fuel + 2) failM1 rfl]
    show run failWorld (fuel + 1 + 1) failM2 = _
    rw [run_emit_step failWorld (fuel + 1) failM2
      (.error (.reconnectFailed 3 "Maximum reconnection attempts reached")) rfl]
    show (Except.error (.reconnectFailed 3 "Maximum reconnection attempts reached") :
        Except WsErr Nat) :: run failWorld (fuel + 1) failM3 = _
    rw [run_terminated failWorld (fuel + 1) failM3 rfl]
  · intro fuel
    exact run_failWorld_no_items fuel _ rfl (Or.inl ⟨0, rfl⟩)
  · intro fuel
    obtain ⟨_, hs⟩ := pollIter_failWorld_none fuel
      (ReconnectingStream.new Nat ReconnectConfig.default) rfl (Or.inl ⟨0, rfl⟩)
    rcases hs with ⟨a, h⟩ | ⟨a, d, h⟩ <;> rw [h] <;> intro hh <;> cases hh

/-- C6 counterexample: with a connect operation that always succeeds and an
inner stream that always yields `Err(ConnectionClosed)`, five polls of the
wrapper emit no item at all — the `ConnectionClosed` errors produced by the
inner stream are consumed by the reconnection logic instead of being
emitted to the consumer before reconnecting, refuting the claim that every
`Err` item of the inner stream is surfaced. -/
theorem C6_counterexample :
    run ccWorld 5 (ReconnectingStream.new Nat ReconnectConfig.default) = [] := rfl

/-- When a disconnection is handled, the only poll result it can produce is
`Pending` (reconnect scheduled) or the final
`Err(ReconnectFailed{attempts, ..})` (budget exhausted) — never any other
item. -/
theorem handle_disconnection_output {T : Type} (m : ReconnectingStream T) (a : Nat) :
    (handle_disconnection m a).2 = .pending ∨
    (handle_disconnection m a).2 =
      .ready (some (.error (.reconnectFailed a "Maximum reconnection attempts reached"))) := by
  obtain ⟨st, ⟨ci, cm, cmu, cmax⟩, bo, cn⟩ := m
  cases cmax with
  | none =>
    left
    rfl
  | some k =>
    simp only [handle_disconnection]
    split
    · right
      rfl
    · left
      rfl

/-- C6 as amended, for every world, machine and configuration: an
inner-stream `Err` other than `ConnectionClosed` is emitted to the consumer
by the poll that observes it (the wrapper prepares to reconnect at the same
time); an inner-stream `Err(ConnectionClosed)` is never emitted — that poll
returns `Pending` or, if the budget is exhausted, the final
`ReconnectFailed{attempts: 1, ..}` item; and a failure of the connect
operation itself is likewise never emitted — that poll returns `Pending`
or the final `ReconnectFailed` carrying the bumped attempt count, never the
connect error. -/
theorem C6_amended_error_passthrough :
    (∀ (T : Type) (w : ConnectWorld T) (m : ReconnectingStream T) (e : WsErr)
        (rest : List (InnerEv T)),
      m.state = .connected (.fail e :: rest) → e ≠ .connectionClosed →
      (pollNext w m).2 = .ready (some (.error e))) ∧
    (∀ (T : Type) (w : ConnectWorld T) (m : ReconnectingStream T)
        (rest : List (InnerEv T)),
      m.state = .connected (.fail .connectionClosed :: rest) →
      (pollNext w m).2 = .pending ∨
        (pollNext w m).2 = .ready (some (.error
          (.reconnectFailed 1 "Maximum reconnection attempts reached")))) ∧
    (∀ (T : Type) (w : ConnectWorld T) (m : ReconnectingStream T) (a0 : Nat) (e : WsErr),
      m.state = .connecting a0 → w m.connects = .error e →
      (pollNext w m).2 = .pending ∨
        (pollNext w m).2 = .ready (some (.error
          (.reconnectFailed (if a0 = 0 then 1 else a0 + 1)
            "Maximum reconnection attempts reached")))) := by
  refine ⟨?_, ?_, ?_⟩
  · intro T w m e rest hst hne
    have hm : microStep w m =
        ((handle_disconnection m 1).1, some (.ready (some (.error e)))) := by
      unfold microStep
      rw [hst]
      cases e with
      | connectionClosed => exact absurd rfl hne
      | webSocket c => rfl
      | jsonErr => rfl
      | reconnectFailed a s => rfl
    unfold pollNext
    rw [hm]
  · intro T w m rest hst
    have hm : microStep w m =
        ((handle_disconnection m 1).1, some (handle_disconnection m 1).2) := by
      unfold microStep
      rw [hst]
    have hp : (pollNext w m).2 = (handle_disconnection m 1).2 := by
      unfold pollNext
      rw [hm]
    rw [hp]
    exact handle_disconnection_output m 1
  · intro T w m a0 e hst hwe
    obtain ⟨st, cfg, bo, cn⟩ := m
    have hst2 : st = .connecting a0 := hst
    subst hst2
    have hwe2 : w cn = .error e := hwe
    have hm : microStep w (⟨.connecting a0, cfg, bo, cn⟩ : ReconnectingStream T) =
        ((handle_disconnection
            (⟨.connecting a0, cfg, bo, cn + 1⟩ : ReconnectingStream T)
            (if a0 = 0 then 1 else a0 + 1)).1,
         some ((handle_disconnection
            (⟨.connecting a0, cfg, bo, cn + 1⟩ : ReconnectingStream T)
            (if a0 = 0 then 1 else a0 + 1)).2)) := by
      simp only [microStep, hwe2]
    have hp : (pollNext w (⟨.connecting a0, cfg, bo, cn⟩ : ReconnectingStream T)).2 =
        (handle_disconnection
          (⟨.connecting a0, cfg, bo, cn + 1⟩ : ReconnectingStream T)
          (if a0 = 0 then 1 else a0 + 1)).2 := by
      unfold pollNext
      rw [hm]
    rw [hp]
    exact handle_disconnection_output _ _

/-- C6 witness: a `WebSocket` error at the head of the inner stream is
emitted by the next poll; an `Err(ConnectionClosed)` under a budgeted
configuration produces only `Pending` or the final `ReconnectFailed`; a
connect failure of a fresh budgeted stream likewise. -/
theorem C6_amended_witness :
    (pollNext ccWorld
        ⟨.connected [.fail (.webSocket 7)], ReconnectConfig.default, ⟨1, 60, 2⟩, 1⟩).2 =
      .ready (some (.error (.webSocket 7))) ∧
    ((pollNext ccWorld
        ⟨.connected [.fail .connectionClosed], cfg3, ⟨1, 60, 2⟩, 1⟩).2 = .pending ∨
      (pollNext ccWorld
          ⟨.connected [.fail .connectionClosed], cfg3, ⟨1, 60, 2⟩, 1⟩).2 =
        .ready (some (.error
          (.reconnectFailed 1 "Maximum reconnection attempts reached")))) ∧
    ((pollNext failWorld (ReconnectingStream.new Nat cfg3)).2 = .pending ∨
      (pollNext failWorld (ReconnectingStream.new Nat cfg3)).2 =
        .ready (some (.error
          (.reconnectFailed (if 0 = 0 then 1 else 0 + 1)
            "Maximum reconnection attempts reached")))) :=
  ⟨C6_amended_error_passthrough.1 Nat ccWorld _ (.webSocket 7) [] rfl
      (fun h => WsErr.noConfusion h),
   C6_amended_error_passthrough.2.1 Nat ccWorld _ [] rfl,
   C6_amended_error_passthrough.2.2 Nat failWorld (ReconnectingStream.new Nat cfg3)
     0 (.webSocket 0) rfl rfl⟩

/-- C7 counterexample: the very first poll of a freshly created stream whose
connect operation fails moves the machine from `Connecting` directly to
`Reconnecting` — a transition the claim's lifecycle list does not
contain. -/
theorem C7_counterexample :
    shapeOf (ReconnectingStream.new Nat ReconnectConfig.default).state = .connectingS ∧
    shapeOf (microStep failWorld
        (ReconnectingStream.new Nat ReconnectConfig.default)).1.state = .reconnectingS ∧
    ¬ claimLegal .connectingS .reconnectingS := by
  refine ⟨rfl, rfl, ?_⟩
  decide

/-- `handle_disconnection` leaves the machine `Reconnecting` or
`Terminated`. -/
theorem handle_disconnection_shape {T : Type} (m : ReconnectingStream T) (a : Nat) :
    shapeOf (handle_disconnection m a).1.state = .reconnectingS ∨
    shapeOf (handle_disconnection m a).1.state = .terminatedS := by
  obtain ⟨st, ⟨ci, cm, cmu, cmax⟩, bo, cn⟩ := m
  cases cmax with
  | none => left; rfl
  | some k =>
    simp only [handle_disconnection]
    split
    · right
      rfl
    · left
      rfl

/-- C7 as amended: every loop iteration of `poll_next` takes one of the
claimed lifecycle transitions or the one the claim omits,
`Connecting → Reconnecting` on a failed connect; in particular no
transition ever leaves `Terminated`. -/
theorem C7_amended_transitions {T : Type} (w : ConnectWorld T)
    (m : ReconnectingStream T) :
    codeLegal (shapeOf m.state) (shapeOf (microStep w m).1.state) := by
  obtain ⟨st, cfg, bo, cn⟩ := m
  cases st with
  | terminated => exact (by decide : codeLegal .terminatedS .terminatedS)
  | reconnecting a d => exact (by decide : codeLegal .reconnectingS .connectingS)
  | connecting a =>
    cases hw : w cn with
    | ok script =>
      simp only [microStep, hw]
      simp [shapeOf, codeLegal, claimLegal]
    | error e =>
      simp only [microStep, hw]
      rcases handle_disconnection_shape
          (⟨.connecting a, cfg, bo, cn + 1⟩ : ReconnectingStream T)
          (if a = 0 then 1 else a + 1) with h | h <;>
        rw [h] <;> simp [shapeOf, codeLegal, claimLegal]
  | connected rest =>
    cases rest with
    | nil =>
      simp only [microStep]
      rcases handle_disconnection_shape
          (⟨.connected ([] : List (InnerEv T)), cfg, bo, cn⟩ : ReconnectingStream T) 1
        with h | h <;> rw [h] <;> simp [shapeOf, codeLegal, claimLegal]
    | cons ev rest2 =>
      cases ev with
      | item x =>
        simp only [microStep]
        simp [shapeOf, codeLegal, claimLegal]
      | fail e =>
        have hd := handle_disconnection_shape
          (⟨.connected (.fail e :: rest2), cfg, bo, cn⟩ : ReconnectingStream T) 1
        cases e with
        | connectionClosed =>
          simp only [microStep]
          rcases hd with h | h <;> rw [h] <;> simp [shapeOf, codeLegal, claimLegal]
        | webSocket c =>
          simp only [microStep]
          rcases hd with h | h <;> rw [h] <;> simp [shapeOf, codeLegal, claimLegal]
        | jsonErr =>
          simp only [microStep]
          rcases hd with h | h <;> rw [h] <;> simp [shapeOf, codeLegal, claimLegal]
        | reconnectFailed a2 s2 =>
          simp only [microStep]
          rcases hd with h | h <;> rw [h] <;> simp [shapeOf, codeLegal, claimLegal]

/-- C8 counterexample: a text frame holding a JSON array of two events
contributes exactly one output item, not two — only the first element is
surfaced and the remainder is discarded. -/
theorem C8_counterexample :
    (itemsOfText (.arrayOf [some (1 : Nat), some 2])).length = 1 ∧
    ¬ (itemsOfText (.arrayOf [some (1 : Nat), some 2])).length = 2 := by
  decide

/-- C8 as amended: a text frame holding a JSON array yields exactly one
output item parsed from the first element (an `Err(Json)` item if that
element fails to parse), independent of the remaining elements, and an
empty array yields no item. -/
theorem C8_amended_first_element_only (E : Type) (first : Option E)
    (rest : List (Option E)) :
    processTextMessage (.arrayOf (first :: rest)) =
      (match first with
       | some e => some (.ok e)
       | none => some (.error .jsonErr)) ∧
    processTextMessage (.arrayOf (first :: rest)) =
      processTextMessage (.arrayOf [first]) ∧
    processTextMessage (.arrayOf ([] : List (Option E))) = none := by
  cases first with
  | some e => exact ⟨rfl, rfl, rfl⟩
  | none => exact ⟨rfl, rfl, rfl⟩

/-- `handle_disconnection` preserves the configuration. -/
theorem handle_disconnection_config {T : Type} (m : ReconnectingStream T) (a : Nat) :
    (handle_disconnection m a).1.config = m.config := by
  obtain ⟨st, ⟨ci, cm, cmu, cmax⟩, bo, cn⟩ := m
  cases cmax with
  | none => rfl
  | some k =>
    simp only [handle_disconnection]
    split <;> rfl

/-- The poll loop never changes the configuration. -/
theorem microStep_config {T : Type} (w : ConnectWorld T) (m : ReconnectingStream T) :
    (microStep w m).1.config = m.config := by
  obtain ⟨st, cfg, bo, cn⟩ := m
  cases st with
  | terminated => rfl
  | reconnecting a d => rfl
  | connecting a =>
    cases hw : w cn with
    | ok script => simp [microStep, hw]
    | error e =>
      simp only [microStep, hw]
      exact handle_disconnection_config _ _
  | connected rest =>
    cases rest with
    | nil => exact handle_disconnection_config _ _
    | cons ev rest2 =>
      cases ev with
      | item x => rfl
      | fail e =>
        cases e with
        | connectionClosed => exact handle_disconnection_config _ _
        | webSocket c => exact handle_disconnection_config _ _
        | jsonErr => exact handle_disconnection_config _ _
        | reconnectFailed a2 s2 => exact handle_disconnection_config _ _

/-- When `handle_disconnection` lands in `Reconnecting`, the recorded
attempt count is exactly the one it was called with. -/
theorem handle_disconnection_attempts {T : Type} (m : ReconnectingStream T)
    (k a : Nat) (d : ℚ) (h : (handle_disconnection m k).1.state = .reconnecting a d) :
    a = k := by
  obtain ⟨st, ⟨ci, cm, cmu, cmax⟩, bo, cn⟩ := m
  cases cmax with
  | none =>
    have h2 : StreamState.reconnecting k bo.current_delay = StreamState.reconnecting a d := h
    injection h2 with h3 h4
    omega
  | some mx =>
    by_cases hle : mx ≤ k
    · have h2 : (handle_disconnection
          (⟨st, ⟨ci, cm, cmu, some mx⟩, bo, cn⟩ : ReconnectingStream T) k).1.state =
          StreamState.terminated := by
        simp only [handle_disconnection]
        rw [if_pos hle]
      rw [h2] at h
      cases h
    · have h2 : (handle_disconnection
          (⟨st, ⟨ci, cm, cmu, some mx⟩, bo, cn⟩ : ReconnectingStream T) k).1.state =
          StreamState.reconnecting k bo.current_delay := by
        simp only [handle_disconnection]
        rw [if_neg hle]
        rfl
      rw [h2] at h
      injection h with h3 h4
      omega

/-- Below its budget, `handle_disconnection` lands in `Reconnecting` with
the attempt count it was called with. -/
theorem handle_disconnection_not_reached {T : Type} (m : ReconnectingStream T)
    (att mx : Nat) (hc : m.config.max_attempts = some mx) (hlt : att < mx) :
    (handle_disconnection m att).1.state = .reconnecting att m.backoff.current_delay := by
  obtain ⟨st, ⟨ci, cm, cmu, cmax⟩, bo, cn⟩ := m
  have hc2 : cmax = some mx := hc
  subst hc2
  simp only [handle_disconnection]
  rw [if_neg (by omega)]
  rfl

/-- One loop iteration preserves the invariant of the always-successful
world: the budget stays configured, and the machine is `Connecting` with at
most one recorded attempt, `Connected`, or `Reconnecting` with exactly one
recorded attempt. -/
theorem microStep_allOk_inv {T : Type} (w : ConnectWorld T) (k : Nat) (hk : 2 ≤ k)
    (hw : ∀ n, ∃ s, w n = .ok s) (m : ReconnectingStream T)
    (hc : m.config.max_attempts = some k)
    (hs : (∃ a, a ≤ 1 ∧ m.state = .connecting a) ∨
          (∃ rest, m.state = .connected rest) ∨
          (∃ d, m.state = .reconnecting 1 d)) :
    (microStep w m).1.config.max_attempts = some k ∧
    ((∃ a, a ≤ 1 ∧ (microStep w m).1.state = .connecting a) ∨
      (∃ rest, (microStep w m).1.state = .connected rest) ∨
      (∃ d, (microStep w m).1.state = .reconnecting 1 d)) := by
  refine ⟨by rw [microStep_config]; exact hc, ?_⟩
  obtain ⟨st, cfg, bo, cn⟩ := m
  have hc2 : cfg.max_attempts = some k := hc
  rcases hs with ⟨a, ha, h⟩ | ⟨rest, h⟩ | ⟨d, h⟩
  · have h2 : st = .connecting a := h
    subst h2
    obtain ⟨s, hws⟩ := hw cn
    simp only [microStep, hws]
    exact Or.inr (Or.inl ⟨s, rfl⟩)
  · have h2 : st = .connected rest := h
    subst h2
    cases rest with
    | nil =>
      have hh := handle_disconnection_not_reached
        (⟨.connected ([] : List (InnerEv T)), cfg, bo, cn⟩ : ReconnectingStream T)
        1 k hc2 (by omega)
      exact Or.inr (Or.inr ⟨_, hh⟩)
    | cons ev rest2 =>
      cases ev with
      | item x => exact Or.inr (Or.inl ⟨rest2, rfl⟩)
      | fail e =>
        have hh := handle_disconnection_not_reached
          (⟨.connected (.fail e :: rest2), cfg, bo, cn⟩ : ReconnectingStream T)
          1 k hc2 (by omega)
        cases e with
        | connectionClosed => exact Or.inr (Or.inr ⟨_, hh⟩)
        | webSocket c => exact Or.inr (Or.inr ⟨_, hh⟩)
        | jsonErr => exact Or.inr (Or.inr ⟨_, hh⟩)
        | reconnectFailed a2 s2 => exact Or.inr (Or.inr ⟨_, hh⟩)
  · have h2 : st = .reconnecting 1 d := h
    subst h2
    exact Or.inl ⟨1, by omega, rfl⟩

/-- C9: when a connected stream's inner stream fails, closes, or ends, the
reconnect attempt counter restarts at 1 (whatever preceded the successful
connection); the counter only climbs across consecutive failures of the
connect operation itself (zero bumps straight to one, otherwise it
increments); consequently, with any `max_attempts ≥ 2`, a stream whose
connect operation always succeeds never reaches `Terminated`, however often
its inner streams fail. -/
theorem C9_attempt_counter_semantics :
    (∀ (T : Type) (w : ConnectWorld T) (m : ReconnectingStream T)
        (rest : List (InnerEv T)),
      m.state = .connected rest →
      (rest = [] ∨ ∃ e rest2, rest = .fail e :: rest2) →
      ∀ a d, (microStep w m).1.state = .reconnecting a d → a = 1) ∧
    (∀ (T : Type) (w : ConnectWorld T) (m : ReconnectingStream T) (a0 : Nat) (e : WsErr),
      m.state = .connecting a0 → w m.connects = .error e →
      ∀ a d, (microStep w m).1.state = .reconnecting a d →
        a = (if a0 = 0 then 1 else a0 + 1)) ∧
    (∀ (T : Type) (w : ConnectWorld T) (cfg : ReconnectConfig) (k : Nat),
      cfg.max_attempts = some k → 2 ≤ k →
      (∀ n, ∃ s, w n = .ok s) →
      ∀ n, (microIter w n (ReconnectingStream.new T cfg)).state ≠ .terminated) := by
  refine ⟨?_, ?_, ?_⟩
  · intro T w m rest hst hshape a d h
    obtain ⟨st, cfg, bo, cn⟩ := m
    have hst2 : st = .connected rest := hst
    subst hst2
    rcases hshape with hnil | ⟨e, rest2, hcons⟩
    · subst hnil
      exact handle_disconnection_attempts _ 1 a d h
    · subst hcons
      cases e with
      | connectionClosed => exact handle_disconnection_attempts _ 1 a d h
      | webSocket c => exact handle_disconnection_attempts _ 1 a d h
      | jsonErr => exact handle_disconnection_attempts _ 1 a d h
      | reconnectFailed a2 s2 => exact handle_disconnection_attempts _ 1 a d h
  · intro T w m a0 e hst hwe a d h
    obtain ⟨st, cfg, bo, cn⟩ := m
    have hst2 : st = .connecting a0 := hst
    subst hst2
    have hwe2 : w cn = .error e := hwe
    simp only [microStep, hwe2] at h
    exact handle_disconnection_attempts _ _ a d h
  · intro T w cfg k hc hk hw n
    have key : ∀ (n : Nat) (m : ReconnectingStream T),
        m.config.max_attempts = some k →
        ((∃ a, a ≤ 1 ∧ m.state = .connecting a) ∨
          (∃ rest, m.state = .connected rest) ∨
          (∃ d, m.state = .reconnecting 1 d)) →
        (microIter w n m).config.max_attempts = some k ∧
        ((∃ a, a ≤ 1 ∧ (microIter w n m).state = .connecting a) ∨
          (∃ rest, (microIter w n m).state = .connected rest) ∨
          (∃ d, (microIter w n m).state = .reconnecting 1 d)) := by
      intro n
      induction n with
      | zero =>
        intro m h1 h2
        exact ⟨h1, h2⟩
      | succ nn ih =>
        intro m h1 h2
        obtain ⟨h1b, h2b⟩ := microStep_allOk_inv w k hk hw m h1 h2
        exact ih _ h1b h2b
    obtain ⟨_, hs⟩ := key n (ReconnectingStream.new T cfg) hc (Or.inl ⟨0, by omega, rfl⟩)
    rcases hs with ⟨a, _, h⟩ | ⟨rest, h⟩ | ⟨d, h⟩ <;> rw [h] <;> intro hh <;> cases hh

/-- C9 witness: a machine connected to an inner stream that fails at once,
under `max_attempts = 2`, reconnects with the counter restarted at 1, and
seven loop iterations of an always-succeeding world never terminate it. -/
theorem C9_witness :
    (∀ a d,
      (microStep ccWorld
          (⟨.connected [.fail .connectionClosed], cfg3, ⟨4, 60, 2⟩, 5⟩ :
            ReconnectingStream Nat)).1.state = .reconnecting a d → a = 1) ∧
    (microIter ccWorld 7 (ReconnectingStream.new Nat ⟨1, 60, 2, some 2⟩)).state ≠
      .terminated :=
  ⟨fun a d h =>
    C9_attempt_counter_semantics.1 Nat ccWorld _ [.fail .connectionClosed] rfl
      (Or.inr ⟨.connectionClosed, [], rfl⟩) a d h,
   C9_attempt_counter_semantics.2.2 Nat ccWorld ⟨1, 60, 2, some 2⟩ 2 rfl (by omega)
     (fun n => ⟨[.fail .connectionClosed], rfl⟩) 7⟩
